import Mathlib

/-!
# webhookforrisu: the event codec and the server of `webhook.go`

A shallow embedding of `NewEvent` (decode), `Event.String` (encode) and
`NewServer` from `src/webhook.go`, and the properties of the codec and of the
event queue stated over it.

Modelling conventions.

* A Go `string` is an immutable byte sequence: `len` is the number of bytes and
  `s[8:]` slices bytes.  It is embedded as `List UInt8`; string literals of the
  source are turned into their UTF-8 bytes by `lit`.
* Go evaluates `parts[i]` and `s[8:]` with a bounds check and panics when it
  fails.  The embedding makes this explicit: the result of `NewEvent` is an
  `Option`, where `none` stands for a run-time panic and `some (ev, err)` for a
  normal return of the pair `(*Event, error)`.
* A `*Event` result is an `Option Event` (`none` is `nil`); an `error` result is
  an `Option GoError` (`none` is `nil`).
* The channel `Events` is embedded as its capacity and its buffer, oldest value
  first, and operated on by one goroutine at a time; blocking and scheduling
  are not part of the embedding.
-/

namespace Webhook

/-! ## Data model -/

/-- A Go string, as its sequence of bytes. -/
abbrev GoString := List UInt8

/-- The bytes of a string literal of the source (Go source text is UTF-8). -/
def lit (s : String) : GoString :=
  s.data.flatMap String.utf8EncodeChar

/-- A Go error value created by `errors.New`, identified by its message. -/
structure GoError where
  msg : GoString
deriving DecidableEq, Repr

/-- `var ErrInvalidEventFormat = errors.New(...)` (webhook.go, line 10). -/
def ErrInvalidEventFormat : GoError :=
  ⟨lit "Unable to parse event string. Invalid Format."⟩

/-- `type Event struct` (webhook.go, lines 12-21), fields in source order.
The field `Type` of the source is named `Type_` here, `Type` being a keyword. -/
structure Event where
  Owner : GoString
  Repo : GoString
  Branch : GoString
  Commit : GoString
  Type_ : GoString
  BaseOwner : GoString
  BaseRepo : GoString
  BaseBranch : GoString
deriving DecidableEq, Repr

/-- The zero value `Event{}`: every field is the empty string. -/
def Event.zero : Event :=
  ⟨[], [], [], [], [], [], [], []⟩

/-! ## The library functions the codec calls -/

/-- `strings.TrimLeft(s, cutset)` for a cutset of ASCII bytes: drops the
leading bytes that occur in `cutset`. -/
def TrimLeft (s cutset : GoString) : GoString :=
  s.dropWhile (fun b => decide (b ∈ cutset))

/-- `strings.TrimRight(s, cutset)` for a cutset of ASCII bytes: drops the
trailing bytes that occur in `cutset`. -/
def TrimRight (s cutset : GoString) : GoString :=
  (s.reverse.dropWhile (fun b => decide (b ∈ cutset))).reverse

/-- `strings.Trim(s, cutset)` for a cutset of ASCII bytes, as the Go library
computes it: the trailing bytes are removed first, then the leading ones.
(For an ASCII cutset, removing bytes and removing code points coincide, since
no byte of a multi-byte UTF-8 sequence is ASCII.) -/
def Trim (s cutset : GoString) : GoString :=
  TrimLeft (TrimRight s cutset) cutset

/-- `strings.Split(s, sep)` for a separator of one byte `sep`, the only way
the source calls it: the substrings of `s` between the occurrences of `sep`.
A string without `sep` (the empty string included) gives the one-element
slice holding the string itself. -/
def Split : GoString → UInt8 → List GoString
  | [], _ => [[]]
  | b :: bs, sep =>
    if b = sep then
      [] :: Split bs sep
    else
      match Split bs sep with
      | [] => [[b]]
      | p :: ps => (b :: p) :: ps

/-- The index expression `xs[i]` of Go: `none` is the run-time panic
"index out of range". -/
def index {α : Type} (xs : List α) (i : Nat) : Option α :=
  xs[i]?

/-- The slice expression `s[n:]` of Go on a string: `none` is the run-time
panic "slice bounds out of range", raised when `n > len(s)`. -/
def sliceFrom (s : GoString) (n : Nat) : Option GoString :=
  if n ≤ s.length then some (s.drop n) else none

/-! ## The codec -/

/-- The cutset of the `strings.Trim` call at webhook.go, line 26. -/
def cutset : GoString := lit "\n\t "

/-- The line separator of the `strings.Split` call at webhook.go, line 29:
the one byte of the literal `"\n"`. -/
def newline : UInt8 := 10

/-- The `for _, item := range parts` loop of webhook.go, lines 35-39: `true`
when the loop reaches its `return nil, ErrInvalidEventFormat`, that is when
some item is shorter than 8 bytes. -/
def hasShortLine : List GoString → Bool
  | [] => false
  | item :: rest => if item.length < 8 then true else hasShortLine rest

/-- `func NewEvent(e string) (*Event, error)` (webhook.go, lines 24-60).
The outer `Option` is `none` when an index or slice expression panics. -/
def NewEvent (e : GoString) : Option (Option Event × Option GoError) :=
  -- Trim whitespace
  let e := Trim e cutset
  -- Split into lines
  let parts := Split e newline
  -- Sanity checking
  if parts.length ≠ 5 ∨ parts.length ≠ 8 then
    some (none, some ErrInvalidEventFormat)
  else if hasShortLine parts then
    some (none, some ErrInvalidEventFormat)
  else do
    -- Fill in values for the event
    let event := Event.zero
    let v ← (index parts 0).bind (sliceFrom · 8)
    let event := { event with Type_ := v }
    let v ← (index parts 1).bind (sliceFrom · 8)
    let event := { event with Owner := v }
    let v ← (index parts 2).bind (sliceFrom · 8)
    let event := { event with Repo := v }
    let v ← (index parts 3).bind (sliceFrom · 8)
    let event := { event with Branch := v }
    let v ← (index parts 4).bind (sliceFrom · 8)
    let event := { event with Commit := v }
    -- Fill in extra values if it is a pull_request
    if event.Type_ = lit "pull_request" then
      if parts.length ≠ 8 then
        some (none, some ErrInvalidEventFormat)
      else do
        let v ← (index parts 5).bind (sliceFrom · 8)
        let event := { event with BaseOwner := v }
        let v ← (index parts 6).bind (sliceFrom · 8)
        let event := { event with BaseRepo := v }
        let v ← (index parts 7).bind (sliceFrom · 8)
        let event := { event with BaseBranch := v }
        some (some event, none)
    else
      some (some event, none)

/-- `func (e *Event) String() (output string)` (webhook.go, lines 62-76), on a
non-nil receiver.  `output` starts as the empty string and grows by `+=`. -/
def Event.String (e : Event) : GoString :=
  let output : GoString := []
  let output := output ++ (lit "type:   " ++ e.Type_ ++ lit "\n")
  let output := output ++ (lit "owner:  " ++ e.Owner ++ lit "\n")
  let output := output ++ (lit "repo:   " ++ e.Repo ++ lit "\n")
  let output := output ++ (lit "branch: " ++ e.Branch ++ lit "\n")
  let output := output ++ (lit "commit: " ++ e.Commit ++ lit "\n")
  if e.Type_ = lit "pull_request" then
    let output := output ++ (lit "bowner: " ++ e.BaseOwner ++ lit "\n")
    let output := output ++ (lit "brepo:  " ++ e.BaseRepo ++ lit "\n")
    let output := output ++ (lit "bbranch:" ++ e.BaseBranch ++ lit "\n")
    output
  else
    output

/-! ## The server and its event queue -/

/-- A buffered Go channel `chan Event`, seen by one goroutine at a time: its
capacity (the size given to `make`) and the values it buffers, oldest first. -/
structure Chan where
  cap : Nat
  buf : List Event
deriving DecidableEq, Repr

/-- `make(chan Event, n)`: an empty channel of capacity `n`. -/
def makeChan (n : Nat) : Chan :=
  ⟨n, []⟩

/-- `type Server struct` (webhook.go, lines 78-83). -/
structure Server where
  Port : Int
  Path : GoString
  Secret : GoString
  Events : Chan
deriving DecidableEq, Repr

/-- `func NewServer() *Server` (webhook.go, lines 86-92).  The composite
literal gives `Port`, `Path` and `Events`; `Secret` is not mentioned and so has
the zero value, the empty string. -/
def NewServer : Server :=
  { Port := 8080
    Path := lit "/build"
    Secret := []
    Events := makeChan 10 }

/-- The `select` of `main` (webhook.go, lines 101-106) on the channel: when a
value is buffered the arm `case event := <-server.Events` runs and receives the
oldest one; when none is, the `default` arm runs and nothing is received. -/
def selectRecv (c : Chan) : Option Event × Chan :=
  match c.buf with
  | [] => (none, c)
  | event :: rest => (some event, { c with buf := rest })

/-- The two outcomes of the specification's `Enqueue`. -/
inductive EnqueueResult where
  | Ok
  | Overloaded
deriving DecidableEq, Repr

/-- Modelled from the spec: `Enqueue`, which webhook.go does not contain (no
statement of the source sends on `Events`).  By the specification (section
4.2), when the queue has free capacity the event is appended behind the
buffered ones and the result is `Ok`; when the queue is at capacity the result
is `Overloaded`, at once, and the event is dropped. -/
def Enqueue (q : Chan) (e : Event) : Chan × EnqueueResult :=
  if q.buf.length < q.cap then
    ({ q with buf := q.buf ++ [e] }, EnqueueResult.Ok)
  else
    (q, EnqueueResult.Overloaded)

/-- An operation on the queue: a producer enqueues an event, or the consumer
drains once. -/
inductive Op where
  | enqueue (e : Event)
  | drain
deriving DecidableEq, Repr

/-- A queue together with the record of what happened to it: the result of
every enqueue, the events that were accepted, and the events that were
delivered, each in the order of occurrence. -/
structure Trace where
  q : Chan
  results : List EnqueueResult
  accepted : List Event
  delivered : List Event
deriving DecidableEq, Repr

/-- The trace of a fresh queue of capacity `n`. -/
def Trace.start (n : Nat) : Trace :=
  ⟨makeChan n, [], [], []⟩

/-- One operation: an enqueue goes through `Enqueue`, a drain through
`selectRecv`. -/
def Trace.step (t : Trace) : Op → Trace
  | Op.enqueue e =>
    match Enqueue t.q e with
    | (q, EnqueueResult.Ok) =>
      { t with q := q, results := t.results ++ [EnqueueResult.Ok], accepted := t.accepted ++ [e] }
    | (q, EnqueueResult.Overloaded) =>
      { t with q := q, results := t.results ++ [EnqueueResult.Overloaded] }
  | Op.drain =>
    match selectRecv t.q with
    | (some d, q) => { t with q := q, delivered := t.delivered ++ [d] }
    | (none, q) => { t with q := q }

/-- A sequence of operations, from left to right. -/
def Trace.run (t : Trace) (ops : List Op) : Trace :=
  ops.foldl Trace.step t

/-! ## Vocabulary of the specification

The definitions below are not translated from the source: they name the
notions the specification uses to talk about payloads and events. -/

/-- The lines of a payload as the specification counts them: the payload with
its surrounding whitespace stripped, split at every newline. -/
def payloadLines (p : GoString) : List GoString :=
  Split (Trim p cutset) newline

/-- The first-line value of a payload: the text from offset 8 of its first
line (empty when the first line has fewer than 8 bytes). -/
def firstLineValue (p : GoString) : GoString :=
  ((payloadLines p).headD []).drop 8

/-- A field value as the specification wants it: non-empty, without a newline,
and without whitespace at either end. -/
def CleanField (s : GoString) : Prop :=
  s ≠ [] ∧ newline ∉ s ∧ Trim s cutset = s

instance (s : GoString) : Decidable (CleanField s) := by
  unfold CleanField
  infer_instance

/-- A valid Event of the specification: `Type` is `push` or `pull_request`,
the four structural fields are clean, and the three base fields are set
(clean) exactly when `Type` is `pull_request`, empty otherwise. -/
def ValidEvent (e : Event) : Prop :=
  (e.Type_ = lit "push" ∨ e.Type_ = lit "pull_request") ∧
  CleanField e.Owner ∧ CleanField e.Repo ∧ CleanField e.Branch ∧ CleanField e.Commit ∧
  (e.Type_ = lit "pull_request" →
    CleanField e.BaseOwner ∧ CleanField e.BaseRepo ∧ CleanField e.BaseBranch) ∧
  (e.Type_ ≠ lit "pull_request" →
    e.BaseOwner = [] ∧ e.BaseRepo = [] ∧ e.BaseBranch = [])

instance (e : Event) : Decidable (ValidEvent e) := by
  unfold ValidEvent
  infer_instance

/-- The field names of the text format, in the order of the lines. -/
def fieldNames : List GoString :=
  [lit "type", lit "owner", lit "repo", lit "branch", lit "commit",
   lit "bowner", lit "brepo", lit "bbranch"]

/-- The label part of a line: the field name, a colon, and spaces up to a
width of 8 bytes. -/
def label (name : GoString) : GoString :=
  name ++ lit ":" ++ List.replicate (7 - name.length) 32

/-- The values an Event is rendered from, in the order of the lines: the five
structural fields, then the three base fields when `Type` is `pull_request`. -/
def fieldValues (e : Event) : List GoString :=
  [e.Type_, e.Owner, e.Repo, e.Branch, e.Commit] ++
    (if e.Type_ = lit "pull_request" then [e.BaseOwner, e.BaseRepo, e.BaseBranch] else [])

/-- One line of the text format: label part, value, newline. -/
def renderLine (name value : GoString) : GoString :=
  label name ++ value ++ lit "\n"

/-- An Event none of whose eight fields contains a newline. -/
def NewlineFree (e : Event) : Prop :=
  newline ∉ e.Type_ ∧ newline ∉ e.Owner ∧ newline ∉ e.Repo ∧ newline ∉ e.Branch ∧
  newline ∉ e.Commit ∧ newline ∉ e.BaseOwner ∧ newline ∉ e.BaseRepo ∧ newline ∉ e.BaseBranch

instance (e : Event) : Decidable (NewlineFree e) := by
  unfold NewlineFree
  infer_instance

/-- An Event whose three base fields are empty unless `Type` is
`pull_request`. -/
def BaseOnlyForPull (e : Event) : Prop :=
  e.Type_ ≠ lit "pull_request" → e.BaseOwner = [] ∧ e.BaseRepo = [] ∧ e.BaseBranch = []

instance (e : Event) : Decidable (BaseOnlyForPull e) := by
  unfold BaseOnlyForPull
  infer_instance

/-- A string made only of newlines, tabs and spaces. -/
def IsWhitespace (w : GoString) : Prop :=
  ∀ b ∈ w, b ∈ cutset

instance (w : GoString) : Decidable (IsWhitespace w) := by
  unfold IsWhitespace
  infer_instance

/-- `strings.Join(lines, sep)` for a separator of one byte: the lines with
`sep` between each two neighbours. -/
def Join : List GoString → UInt8 → GoString
  | [], _ => []
  | [l], _ => l
  | l :: l2 :: ls, sep => l ++ sep :: Join (l2 :: ls) sep

/-! ## Sample events and payloads -/

/-- The push event of the specification's concrete scenario. -/
def alicePush : Event :=
  { Event.zero with
    Type_ := lit "push", Owner := lit "alice", Repo := lit "widget",
    Branch := lit "main", Commit := lit "abc123" }

/-- The canonical payload of the specification's concrete scenario. -/
def alicePayload : GoString :=
  lit "type:   push\nowner:  alice\nrepo:   widget\nbranch: main\ncommit: abc123"

/-- A valid push event. -/
def bobPush : Event :=
  { Event.zero with
    Type_ := lit "push", Owner := lit "bob", Repo := lit "gadget",
    Branch := lit "dev", Commit := lit "0f3c9a" }

/-- A valid pull-request event. -/
def carolPull : Event :=
  { Type_ := lit "pull_request", Owner := lit "carol", Repo := lit "gizmo",
    Branch := lit "feature", Commit := lit "77aa01",
    BaseOwner := lit "dave", BaseRepo := lit "gizmo", BaseBranch := lit "master" }

/-- A well-formed push payload of 5 lines, with surrounding whitespace. -/
def pushPayload : GoString :=
  lit "\n  type:   push\nowner:  erin\nrepo:   tool\nbranch: main\ncommit: c0ffee\n\t"

/-- A well-formed pull-request payload of 8 lines. -/
def pullPayload : GoString :=
  lit ("type:   pull_request\nowner:  erin\nrepo:   tool\nbranch: fix\ncommit: c0ffee\n" ++
    "bowner: frank\nbrepo:  tool\nbbranch:main")

/-- The push event `bobPush` with its three base fields filled in, which the
format has no lines for. -/
def bobPushWithBase : Event :=
  { bobPush with BaseOwner := lit "dave", BaseRepo := lit "gizmo", BaseBranch := lit "master" }

/-! ## Shared lemmas -/

/-- The line-count test of webhook.go, line 32, holds of every number: no
number is both 5 and 8. -/
theorem lineCount_test_always (n : Nat) : n ≠ 5 ∨ n ≠ 8 := by
  omega

/-- Consequence for `NewEvent`: the first `return nil, ErrInvalidEventFormat`
is taken on every input. -/
theorem NewEvent_takes_first_return (e : GoString) :
    NewEvent e = some (none, some ErrInvalidEventFormat) := by
  unfold NewEvent
  exact if_pos (lineCount_test_always _)

/-- The label parts are the eight 8-byte literals of `Event.String`. -/
theorem label_fieldNames :
    fieldNames.map label =
      [lit "type:   ", lit "owner:  ", lit "repo:   ", lit "branch: ", lit "commit: ",
       lit "bowner: ", lit "brepo:  ", lit "bbranch:"] := by
  decide

/-- Every label part is 8 bytes wide. -/
theorem label_length {n : GoString} (h : n ∈ fieldNames) : (label n).length = 8 := by
  have key : ∀ m ∈ fieldNames, (label m).length = 8 := by decide
  exact key n h

/-! ## The claims -/

/-- C1 (round trip), evaluated on the code: `bobPush` and `carolPull` are valid
Events, one of each variant, yet decoding their encoding returns
`(nil, ErrInvalidEventFormat)` instead of the Event. -/
theorem roundTrip_fails_on_valid_events :
    ValidEvent bobPush ∧
    NewEvent bobPush.String = some (none, some ErrInvalidEventFormat) ∧
    NewEvent bobPush.String ≠ some (some bobPush, none) ∧
    ValidEvent carolPull ∧
    NewEvent carolPull.String = some (none, some ErrInvalidEventFormat) ∧
    NewEvent carolPull.String ≠ some (some carolPull, none) := by
  decide

/-- C2 (acceptance), evaluated on the code: `pushPayload` has exactly 5 lines
of at least 8 bytes and first-line value `push`, `pullPayload` has exactly 8
such lines and first-line value `pull_request`, yet `NewEvent` returns
`(nil, ErrInvalidEventFormat)` on both. -/
theorem wellFormed_payloads_rejected :
    (payloadLines pushPayload).length = 5 ∧
    (∀ l ∈ payloadLines pushPayload, 8 ≤ l.length) ∧
    firstLineValue pushPayload = lit "push" ∧
    NewEvent pushPayload = some (none, some ErrInvalidEventFormat) ∧
    (payloadLines pullPayload).length = 8 ∧
    (∀ l ∈ payloadLines pullPayload, 8 ≤ l.length) ∧
    firstLineValue pullPayload = lit "pull_request" ∧
    NewEvent pullPayload = some (none, some ErrInvalidEventFormat) := by
  decide

/-- C3 (concrete scenario), evaluated on the code: the canonical payload of the
scenario is rejected with `(nil, ErrInvalidEventFormat)` instead of decoding to
the Event `alicePush`, although `alicePush` does encode to the payload followed
by a single newline. -/
theorem scenario_payload_rejected :
    NewEvent alicePayload = some (none, some ErrInvalidEventFormat) ∧
    NewEvent alicePayload ≠ some (some alicePush, none) ∧
    alicePush.String = alicePayload ++ lit "\n" := by
  decide

/-- C4 (line-count rejection): a payload whose stripped text splits into a
number of lines other than 5 or 8 makes `NewEvent` return a nil Event and
`ErrInvalidEventFormat`. -/
theorem lineCount_rejection (p : GoString)
    (h5 : (payloadLines p).length ≠ 5) (h8 : (payloadLines p).length ≠ 8) :
    NewEvent p = some (none, some ErrInvalidEventFormat) := by
  have _h := h8
  unfold NewEvent
  exact if_pos (Or.inl h5)

/-- Witness of C4: a payload of 4 lines. -/
theorem lineCount_rejection_witness :
    (payloadLines (lit "type:   push\nowner:  alice\nrepo:   widget\nbranch: main")).length = 4 ∧
    NewEvent (lit "type:   push\nowner:  alice\nrepo:   widget\nbranch: main") =
      some (none, some ErrInvalidEventFormat) :=
  ⟨by decide, lineCount_rejection _ (by decide) (by decide)⟩

/-- C5 (short-line rejection): a payload of 5 or 8 lines, one of which is
shorter than 8 bytes, makes `NewEvent` return a nil Event and
`ErrInvalidEventFormat`. -/
theorem shortLine_rejection (p : GoString)
    (hn : (payloadLines p).length = 5 ∨ (payloadLines p).length = 8)
    (hs : ∃ l ∈ payloadLines p, l.length < 8) :
    NewEvent p = some (none, some ErrInvalidEventFormat) := by
  have _hn := hn
  have _hs := hs
  exact NewEvent_takes_first_return p

/-- Witness of C5: a payload of 5 lines whose third line, `repo:`, has 5
bytes. -/
theorem shortLine_rejection_witness :
    (payloadLines (lit "type:   push\nowner:  alice\nrepo:\nbranch: main\ncommit: abc123")).length = 5 ∧
    NewEvent (lit "type:   push\nowner:  alice\nrepo:\nbranch: main\ncommit: abc123") =
      some (none, some ErrInvalidEventFormat) :=
  ⟨by decide, shortLine_rejection _ (by decide) ⟨lit "repo:", by decide, by decide⟩⟩

/-- C6 (type/arity coupling): on a payload whose lines all have at least 8
bytes, `NewEvent` returns `ErrInvalidEventFormat` when the first-line value is
`push` and there are 8 lines, and when the first-line value is `pull_request`
and there are 5 lines. -/
theorem typeArity_coupling (p : GoString)
    (hlen : ∀ l ∈ payloadLines p, 8 ≤ l.length)
    (hmix : (firstLineValue p = lit "push" ∧ (payloadLines p).length = 8) ∨
      (firstLineValue p = lit "pull_request" ∧ (payloadLines p).length = 5)) :
    NewEvent p = some (none, some ErrInvalidEventFormat) := by
  have _hlen := hlen
  have _hmix := hmix
  exact NewEvent_takes_first_return p

/-- Witness of C6: a `push` payload of 8 lines and a `pull_request` payload of
5 lines. -/
theorem typeArity_coupling_witness :
    NewEvent (lit ("type:   push\nowner:  erin\nrepo:   tool\nbranch: fix\ncommit: c0ffee\n" ++
        "bowner: frank\nbrepo:  tool\nbbranch:main")) =
      some (none, some ErrInvalidEventFormat) ∧
    NewEvent (lit "type:   pull_request\nowner:  erin\nrepo:   tool\nbranch: fix\ncommit: c0ffee") =
      some (none, some ErrInvalidEventFormat) :=
  ⟨typeArity_coupling _ (by decide) (Or.inl (by decide)),
   typeArity_coupling _ (by decide) (Or.inr (by decide))⟩

/-- C7 (type validation): a payload whose first-line value is neither `push`
nor `pull_request` makes `NewEvent` return a nil Event and
`ErrInvalidEventFormat`, whatever its line count and line lengths. -/
theorem type_validation (p : GoString)
    (hpush : firstLineValue p ≠ lit "push")
    (hpull : firstLineValue p ≠ lit "pull_request") :
    NewEvent p = some (none, some ErrInvalidEventFormat) := by
  have _hpush := hpush
  have _hpull := hpull
  exact NewEvent_takes_first_return p

/-- Witness of C7: a payload of 5 lines of at least 8 bytes whose first-line
value is `merge`. -/
theorem type_validation_witness :
    firstLineValue (lit "type:   merge\nowner:  alice\nrepo:   widget\nbranch: main\ncommit: abc123") =
      lit "merge" ∧
    NewEvent (lit "type:   merge\nowner:  alice\nrepo:   widget\nbranch: main\ncommit: abc123") =
      some (none, some ErrInvalidEventFormat) :=
  ⟨by decide, type_validation _ (by decide) (by decide)⟩

/-- C8 (uniform result shape): on every input `NewEvent` returns normally, with
either a non-nil Event and a nil error, or a nil Event and
`ErrInvalidEventFormat`. -/
theorem result_shape (s : GoString) :
    (∃ ev, NewEvent s = some (some ev, none)) ∨
    NewEvent s = some (none, some ErrInvalidEventFormat) :=
  Or.inr (NewEvent_takes_first_return s)

/-- C10 (encode format): `e.String()` is the concatenation of the lines
`label ++ value ++ "\n"` for the fields type, owner, repo, branch, commit and,
exactly when `e.Type` is `pull_request`, bowner, brepo, bbranch; each label
part (name, colon, padding spaces) is 8 bytes wide, so the value starts at
offset 8 of its line; there are 8 lines for `pull_request` and 5 otherwise. -/
theorem String_format (e : Event) :
    e.String =
      ((fieldNames.zip (fieldValues e)).map (fun nv => renderLine nv.1 nv.2)).flatten ∧
    (fieldValues e).take 5 = [e.Type_, e.Owner, e.Repo, e.Branch, e.Commit] ∧
    ((fieldValues e).drop 5 =
      if e.Type_ = lit "pull_request" then [e.BaseOwner, e.BaseRepo, e.BaseBranch] else []) ∧
    ((fieldNames.zip (fieldValues e)).length =
      if e.Type_ = lit "pull_request" then 8 else 5) ∧
    (∀ n ∈ fieldNames, (label n).length = 8) ∧
    (∀ n ∈ fieldNames, ∀ v : GoString, (renderLine n v).drop 8 = v ++ lit "\n") := by
  have hlab := label_fieldNames
  simp only [fieldNames, List.map_cons, List.map_nil, List.cons.injEq, and_true] at hlab
  obtain ⟨h1, h2, h3, h4, h5, h6, h7, h8⟩ := hlab
  refine ⟨?_, ?_, ?_, ?_, fun n hn => label_length hn, ?_⟩
  · by_cases h : e.Type_ = lit "pull_request"
    · simp [Event.String, fieldValues, fieldNames, renderLine, h, h1, h2, h3, h4, h5, h6, h7, h8]
    · simp [Event.String, fieldValues, fieldNames, renderLine, h, h1, h2, h3, h4, h5]
  · simp [fieldValues]
  · simp [fieldValues]
  · by_cases h : e.Type_ = lit "pull_request" <;> simp [fieldValues, fieldNames, h]
  · intro n hn v
    have hl := label_length hn
    simp only [renderLine, List.append_assoc]
    rw [List.drop_append_eq_append_drop, List.drop_of_length_le (le_of_eq hl), hl]
    simp

/-! ## Lemmas on splitting -/

/-- `Split` never returns the empty slice. -/
theorem Split_ne_nil (s : GoString) (sep : UInt8) : Split s sep ≠ [] := by
  cases s with
  | nil => simp [Split]
  | cons b bs =>
    unfold Split
    split
    · simp
    · split <;> simp

/-- Splitting loses nothing: joining the parts with the separator gives the
string back. -/
theorem Join_Split (s : GoString) (sep : UInt8) : Join (Split s sep) sep = s := by
  induction s with
  | nil => rfl
  | cons b bs ih =>
    unfold Split
    split
    · next hb =>
      obtain ⟨x, xs, hx⟩ := List.exists_cons_of_ne_nil (Split_ne_nil bs sep)
      rw [hx] at ih ⊢
      simp [Join, ih, hb]
    · split
      · next hnil => exact absurd hnil (Split_ne_nil bs sep)
      · next p ps hps =>
        rw [hps] at ih
        cases ps with
        | nil => simpa [Join] using ih
        | cons q qs => simpa [Join] using ih

/-! ## Lemmas on trimming -/

/-- Dropping a prefix all of whose elements satisfy the test. -/
theorem dropWhile_append_of_all {α : Type} (c : α → Bool) (a b : List α)
    (h : ∀ x ∈ a, c x = true) : (a ++ b).dropWhile c = b.dropWhile c := by
  induction a with
  | nil => rfl
  | cons x xs ih =>
    have hx : c x = true := h x (List.mem_cons_self x xs)
    rw [List.cons_append, List.dropWhile_cons_of_pos hx]
    exact ih (fun y hy => h y (List.mem_cons_of_mem x hy))

/-- When the test fails somewhere in the first list, the second is untouched. -/
theorem dropWhile_append_of_ne_nil {α : Type} (c : α → Bool) (a b : List α)
    (h : a.dropWhile c ≠ []) : (a ++ b).dropWhile c = a.dropWhile c ++ b := by
  induction a with
  | nil => exact absurd rfl h
  | cons x xs ih =>
    by_cases hx : c x = true
    · rw [List.dropWhile_cons_of_pos hx] at h
      rw [List.cons_append, List.dropWhile_cons_of_pos hx, List.dropWhile_cons_of_pos hx]
      exact ih h
    · rw [List.cons_append, List.dropWhile_cons_of_neg hx, List.dropWhile_cons_of_neg hx]
      rfl

/-- A list that the test consumes whole satisfies it everywhere. -/
theorem all_of_dropWhile_eq_nil {α : Type} (c : α → Bool) (a : List α)
    (h : a.dropWhile c = []) : ∀ x ∈ a, c x = true := by
  induction a with
  | nil => intro x hx; cases hx
  | cons y ys ih =>
    by_cases hy : c y = true
    · rw [List.dropWhile_cons_of_pos hy] at h
      intro x hx
      rcases List.mem_cons.mp hx with rfl | hx
      · exact hy
      · exact ih h x hx
    · rw [List.dropWhile_cons_of_neg hy] at h
      cases h

/-- Whitespace around a payload does not change what `Trim` returns. -/
theorem Trim_surrounded (cs w1 p w2 : GoString)
    (h1 : ∀ b ∈ w1, b ∈ cs) (h2 : ∀ b ∈ w2, b ∈ cs) :
    Trim (w1 ++ p ++ w2) cs = Trim p cs := by
  have c1 : ∀ b ∈ w1, decide (b ∈ cs) = true := fun b hb => decide_eq_true (h1 b hb)
  have c1r : ∀ b ∈ w1.reverse, decide (b ∈ cs) = true :=
    fun b hb => c1 b (List.mem_reverse.mp hb)
  have c2r : ∀ b ∈ w2.reverse, decide (b ∈ cs) = true :=
    fun b hb => decide_eq_true (h2 b (List.mem_reverse.mp hb))
  unfold Trim TrimLeft TrimRight
  rw [List.reverse_append, List.reverse_append, dropWhile_append_of_all _ _ _ c2r]
  by_cases hp : p.reverse.dropWhile (fun b => decide (b ∈ cs)) = []
  · have hall := all_of_dropWhile_eq_nil _ _ hp
    rw [dropWhile_append_of_all _ _ _ hall, hp]
    have hw : w1.reverse.dropWhile (fun b => decide (b ∈ cs)) = [] := by
      have := dropWhile_append_of_all (fun b => decide (b ∈ cs)) w1.reverse [] c1r
      simpa using this
    rw [hw]
  · rw [dropWhile_append_of_ne_nil _ _ _ hp, List.reverse_append, List.reverse_reverse,
      dropWhile_append_of_all _ _ _ c1]

/-- C11 (whitespace insensitivity): for whitespace strings `w1` and `w2`,
`NewEvent (w1 ++ p ++ w2)` is the result of `NewEvent p`, and the two payloads
are stripped to the same text, hence split into the same lines; nothing is
trimmed from a single line, the lines joined by newlines being the whole
stripped text. -/
theorem whitespace_insensitive (p w1 w2 : GoString)
    (h1 : IsWhitespace w1) (h2 : IsWhitespace w2) :
    NewEvent (w1 ++ p ++ w2) = NewEvent p ∧
    Trim (w1 ++ p ++ w2) cutset = Trim p cutset ∧
    payloadLines (w1 ++ p ++ w2) = payloadLines p ∧
    Join (payloadLines (w1 ++ p ++ w2)) newline = Trim p cutset := by
  have ht := Trim_surrounded cutset w1 p w2 h1 h2
  refine ⟨?_, ht, ?_, ?_⟩
  · unfold NewEvent
    rw [ht]
  · unfold payloadLines
    rw [ht]
  · unfold payloadLines
    rw [ht, Join_Split]

/-- Witness of C11: the scenario payload between `"\n\t "` and `" \n\n"`. -/
theorem whitespace_insensitive_witness :
    NewEvent (lit "\n\t " ++ alicePayload ++ lit " \n\n") = NewEvent alicePayload ∧
    Trim (lit "\n\t " ++ alicePayload ++ lit " \n\n") cutset = Trim alicePayload cutset ∧
    payloadLines (lit "\n\t " ++ alicePayload ++ lit " \n\n") = payloadLines alicePayload ∧
    Join (payloadLines (lit "\n\t " ++ alicePayload ++ lit " \n\n")) newline =
      Trim alicePayload cutset :=
  whitespace_insensitive alicePayload (lit "\n\t ") (lit " \n\n") (by decide) (by decide)

/-! ## Lemmas on the encoding -/

/-- Two texts that agree up to their first newline: when neither `a` nor `b`
holds a newline, `a ++ "\n" ++ r = b ++ "\n" ++ s` forces `a = b` and
`r = s`. -/
theorem eq_of_append_newline (a b r s : GoString)
    (ha : newline ∉ a) (hb : newline ∉ b)
    (h : a ++ newline :: r = b ++ newline :: s) : a = b ∧ r = s := by
  induction a generalizing b with
  | nil =>
    cases b with
    | nil => simpa using h
    | cons y ys =>
      simp only [List.nil_append, List.cons_append, List.cons.injEq] at h
      exact absurd (h.1 ▸ List.mem_cons_self y ys) hb
  | cons x xs ih =>
    cases b with
    | nil =>
      simp only [List.nil_append, List.cons_append, List.cons.injEq] at h
      exact absurd (h.1 ▸ List.mem_cons_self x xs) ha
    | cons y ys =>
      simp only [List.cons_append, List.cons.injEq] at h
      have := ih ys (fun hm => ha (List.mem_cons_of_mem x hm))
        (fun hm => hb (List.mem_cons_of_mem y hm)) h.2
      exact ⟨by rw [h.1, this.1], this.2⟩

/-- The same, behind a common label. -/
theorem eq_of_line_eq (l a b r s : GoString)
    (ha : newline ∉ a) (hb : newline ∉ b)
    (h : l ++ (a ++ newline :: r) = l ++ (b ++ newline :: s)) : a = b ∧ r = s :=
  eq_of_append_newline a b r s ha hb (List.append_cancel_left h)

/-- The encoding of an Event whose `Type` is not `pull_request`, line by
line. -/
theorem String_of_not_pull (e : Event) (h : e.Type_ ≠ lit "pull_request") :
    e.String =
      lit "type:   " ++ (e.Type_ ++ newline ::
      (lit "owner:  " ++ (e.Owner ++ newline ::
      (lit "repo:   " ++ (e.Repo ++ newline ::
      (lit "branch: " ++ (e.Branch ++ newline ::
      (lit "commit: " ++ (e.Commit ++ newline :: []))))))))) := by
  have hn : lit "\n" = [newline] := by decide
  simp [Event.String, h, hn]

/-- The encoding of an Event whose `Type` is `pull_request`, line by line. -/
theorem String_of_pull (e : Event) (h : e.Type_ = lit "pull_request") :
    e.String =
      lit "type:   " ++ (e.Type_ ++ newline ::
      (lit "owner:  " ++ (e.Owner ++ newline ::
      (lit "repo:   " ++ (e.Repo ++ newline ::
      (lit "branch: " ++ (e.Branch ++ newline ::
      (lit "commit: " ++ (e.Commit ++ newline ::
      (lit "bowner: " ++ (e.BaseOwner ++ newline ::
      (lit "brepo:  " ++ (e.BaseRepo ++ newline ::
      (lit "bbranch:" ++ (e.BaseBranch ++ newline :: []))))))))))))))) := by
  have hn : lit "\n" = [newline] := by decide
  simp [Event.String, if_pos h, hn]

/-- Every encoding starts with the type line. -/
theorem String_type_line (e : Event) :
    ∃ rest, e.String = lit "type:   " ++ (e.Type_ ++ newline :: rest) := by
  by_cases h : e.Type_ = lit "pull_request"
  · exact ⟨_, String_of_pull e h⟩
  · exact ⟨_, String_of_not_pull e h⟩

/-- C12 (lossless encoding): on Events whose fields hold no newline and whose
base fields are empty unless `Type` is `pull_request`, `Event.String` is
injective. -/
theorem String_injective (e1 e2 : Event)
    (hn1 : NewlineFree e1) (hn2 : NewlineFree e2)
    (hb1 : BaseOnlyForPull e1) (hb2 : BaseOnlyForPull e2)
    (h : e1.String = e2.String) : e1 = e2 := by
  obtain ⟨t1, o1, r1, b1, c1, bo1, br1, bb1⟩ := hn1
  obtain ⟨t2, o2, r2, b2, c2, bo2, br2, bb2⟩ := hn2
  have hType : e1.Type_ = e2.Type_ := by
    obtain ⟨x1, hx1⟩ := String_type_line e1
    obtain ⟨x2, hx2⟩ := String_type_line e2
    rw [hx1, hx2] at h
    exact (eq_of_line_eq _ _ _ _ _ t1 t2 h).1
  by_cases hp : e1.Type_ = lit "pull_request"
  · have hp2 : e2.Type_ = lit "pull_request" := hType ▸ hp
    rw [String_of_pull e1 hp, String_of_pull e2 hp2] at h
    obtain ⟨_, h⟩ := eq_of_line_eq _ _ _ _ _ t1 t2 h
    obtain ⟨hO, h⟩ := eq_of_line_eq _ _ _ _ _ o1 o2 h
    obtain ⟨hR, h⟩ := eq_of_line_eq _ _ _ _ _ r1 r2 h
    obtain ⟨hB, h⟩ := eq_of_line_eq _ _ _ _ _ b1 b2 h
    obtain ⟨hC, h⟩ := eq_of_line_eq _ _ _ _ _ c1 c2 h
    obtain ⟨hBO, h⟩ := eq_of_line_eq _ _ _ _ _ bo1 bo2 h
    obtain ⟨hBR, h⟩ := eq_of_line_eq _ _ _ _ _ br1 br2 h
    obtain ⟨hBB, _⟩ := eq_of_line_eq _ _ _ _ _ bb1 bb2 h
    cases e1
    cases e2
    simp_all
  · have hp2 : e2.Type_ ≠ lit "pull_request" := hType ▸ hp
    rw [String_of_not_pull e1 hp, String_of_not_pull e2 hp2] at h
    obtain ⟨_, h⟩ := eq_of_line_eq _ _ _ _ _ t1 t2 h
    obtain ⟨hO, h⟩ := eq_of_line_eq _ _ _ _ _ o1 o2 h
    obtain ⟨hR, h⟩ := eq_of_line_eq _ _ _ _ _ r1 r2 h
    obtain ⟨hB, h⟩ := eq_of_line_eq _ _ _ _ _ b1 b2 h
    obtain ⟨hC, _⟩ := eq_of_line_eq _ _ _ _ _ c1 c2 h
    obtain ⟨x1, y1, z1⟩ := hb1 hp
    obtain ⟨x2, y2, z2⟩ := hb2 hp2
    cases e1
    cases e2
    simp_all

/-- Witness of C12: the pull-request event `carolPull`, whose fields hold no
newline, taken twice. -/
theorem String_injective_witness :
    NewlineFree carolPull ∧ BaseOnlyForPull carolPull ∧ carolPull = carolPull :=
  ⟨by decide, by decide,
   String_injective carolPull carolPull (by decide) (by decide) (by decide) (by decide) rfl⟩

/-- C13 (server defaults of the specification): `NewServer` gives `Port` 8080,
`Path` `/build`, an empty `Secret`, and an `Events` queue that is empty and
has capacity 10. -/
theorem NewServer_defaults :
    NewServer.Port = 8080 ∧ NewServer.Path = lit "/build" ∧ NewServer.Secret = [] ∧
    NewServer.Events.buf = [] ∧ NewServer.Events.cap = 10 := by
  decide

/-- C14 (default port of the doc comments), evaluated on the code: the Server
of `NewServer` has `Port` 8080, not the 80 of the comments; its `Path` is
`/build`. -/
theorem NewServer_port_is_not_80 :
    NewServer.Port = 8080 ∧ NewServer.Port ≠ 80 ∧ NewServer.Path = lit "/build" := by
  decide

/-! ## Lemmas on the queue -/

/-- An enqueue on a queue with free capacity. -/
theorem step_enqueue_free (t : Trace) (e : Event) (h : t.q.buf.length < t.q.cap) :
    t.step (Op.enqueue e) =
      { q := { t.q with buf := t.q.buf ++ [e] }
        results := t.results ++ [EnqueueResult.Ok]
        accepted := t.accepted ++ [e]
        delivered := t.delivered } := by
  simp [Trace.step, Enqueue, h]

/-- An enqueue on a queue at capacity. -/
theorem step_enqueue_full (t : Trace) (e : Event) (h : ¬ t.q.buf.length < t.q.cap) :
    t.step (Op.enqueue e) =
      { t with results := t.results ++ [EnqueueResult.Overloaded] } := by
  simp [Trace.step, Enqueue, h]

/-- A drain of a queue that buffers nothing. -/
theorem step_drain_empty (t : Trace) (h : t.q.buf = []) : t.step Op.drain = t := by
  simp [Trace.step, selectRecv, h]

/-- A drain of a queue that buffers something. -/
theorem step_drain_cons (t : Trace) (d : Event) (rest : List Event) (h : t.q.buf = d :: rest) :
    t.step Op.drain =
      { t with q := { t.q with buf := rest }, delivered := t.delivered ++ [d] } := by
  simp [Trace.step, selectRecv, h]

/-- No operation changes the capacity of the queue. -/
theorem step_cap (t : Trace) (op : Op) : (t.step op).q.cap = t.q.cap := by
  cases op with
  | enqueue e =>
    by_cases hlt : t.q.buf.length < t.q.cap
    · rw [step_enqueue_free t e hlt]
    · rw [step_enqueue_full t e hlt]
  | drain =>
    cases hb : t.q.buf with
    | nil => rw [step_drain_empty t hb]
    | cons d rest => rw [step_drain_cons t d rest hb]

/-- No operation takes the number of buffered events above the capacity. -/
theorem step_bound (t : Trace) (op : Op) (h : t.q.buf.length ≤ t.q.cap) :
    (t.step op).q.buf.length ≤ t.q.cap := by
  cases op with
  | enqueue e =>
    by_cases hlt : t.q.buf.length < t.q.cap
    · rw [step_enqueue_free t e hlt]
      simpa using hlt
    · rw [step_enqueue_full t e hlt]
      exact h
  | drain =>
    cases hb : t.q.buf with
    | nil =>
      rw [step_drain_empty t hb]
      exact h
    | cons d rest =>
      rw [step_drain_cons t d rest hb]
      rw [hb] at h
      simp only [List.length_cons] at h ⊢
      omega

/-- The bound is kept along every sequence of operations. -/
theorem run_bound (ops : List Op) (t : Trace) (h : t.q.buf.length ≤ t.q.cap) :
    (t.run ops).q.buf.length ≤ t.q.cap := by
  induction ops generalizing t with
  | nil => exact h
  | cons op ops ih =>
    have h1 := step_bound t op h
    have h2 := ih (t.step op) (by rw [step_cap]; exact h1)
    rw [step_cap] at h2
    exact h2

/-- The delivered events followed by the buffered ones are the accepted
events: one operation keeps this. -/
theorem step_fifo (t : Trace) (op : Op) (h : t.delivered ++ t.q.buf = t.accepted) :
    (t.step op).delivered ++ (t.step op).q.buf = (t.step op).accepted := by
  cases op with
  | enqueue e =>
    by_cases hlt : t.q.buf.length < t.q.cap
    · rw [step_enqueue_free t e hlt]
      simp [← h]
    · rw [step_enqueue_full t e hlt]
      exact h
  | drain =>
    cases hb : t.q.buf with
    | nil =>
      rw [step_drain_empty t hb]
      exact h
    | cons d rest =>
      rw [step_drain_cons t d rest hb]
      rw [hb] at h
      simpa using h

/-- And so does every sequence of operations. -/
theorem run_fifo (ops : List Op) (t : Trace) (h : t.delivered ++ t.q.buf = t.accepted) :
    (t.run ops).delivered ++ (t.run ops).q.buf = (t.run ops).accepted := by
  induction ops generalizing t with
  | nil => exact h
  | cons op ops ih => exact ih (t.step op) (step_fifo t op h)

/-- Enqueuing events that fit into the free capacity: every one is accepted
and buffered behind the earlier ones. -/
theorem run_enqueues (es : List Event) (t : Trace)
    (h : t.q.buf.length + es.length ≤ t.q.cap) :
    t.run (es.map Op.enqueue) =
      { q := { t.q with buf := t.q.buf ++ es }
        results := t.results ++ List.replicate es.length EnqueueResult.Ok
        accepted := t.accepted ++ es
        delivered := t.delivered } := by
  induction es generalizing t with
  | nil => simp [Trace.run]
  | cons e es ih =>
    simp only [List.length_cons] at h
    have hlt : t.q.buf.length < t.q.cap := by omega
    have hstep := step_enqueue_free t e hlt
    have hrun : t.run ((e :: es).map Op.enqueue) = (t.step (Op.enqueue e)).run (es.map Op.enqueue) := rfl
    rw [hrun, hstep, ih]
    · simp [List.replicate_succ]
    · simp only [List.length_append, List.length_cons, List.length_nil]
      omega

/-- Draining as many times as there are events at the front of the buffer
delivers exactly these, in order. -/
theorem run_drains (es : List Event) (t : Trace) (rest : List Event)
    (h : t.q.buf = es ++ rest) :
    t.run (List.replicate es.length Op.drain) =
      { t with q := { t.q with buf := rest }, delivered := t.delivered ++ es } := by
  induction es generalizing t with
  | nil =>
    cases t with
    | mk q results accepted delivered =>
      cases q
      simp_all [Trace.run]
  | cons e es ih =>
    have hstep := step_drain_cons t e (es ++ rest) h
    have hrun : t.run (List.replicate (e :: es).length Op.drain) =
        (t.step Op.drain).run (List.replicate es.length Op.drain) := rfl
    rw [hrun, hstep, ih _ rfl]
    simp

/-- C15 (capacity enforcement): on a fresh queue of capacity `N > 0`, `N`
enqueues in a row are all `Ok`; the next enqueue is `Overloaded` and leaves the
queue as it was, the event being dropped; after one drain an enqueue is `Ok`
again; and whatever the operations, the queue never buffers more than `N`
events. -/
theorem capacity_enforcement (N : Nat) (es : List Event) (e e2 : Event)
    (hN : 0 < N) (hes : es.length = N) :
    ((Trace.start N).run (es.map Op.enqueue)).results = List.replicate N EnqueueResult.Ok ∧
    ((Trace.start N).run (es.map Op.enqueue)).q.buf = es ∧
    Enqueue ((Trace.start N).run (es.map Op.enqueue)).q e =
      (((Trace.start N).run (es.map Op.enqueue)).q, EnqueueResult.Overloaded) ∧
    (∃ d q, selectRecv ((Trace.start N).run (es.map Op.enqueue)).q = (some d, q) ∧
      (Enqueue q e2).2 = EnqueueResult.Ok) ∧
    (∀ ops, ((Trace.start N).run ops).q.buf.length ≤ N) := by
  have hfill := run_enqueues es (Trace.start N)
    (by simp [Trace.start, makeChan, hes])
  rw [hfill]
  refine ⟨by simp [Trace.start, hes], by simp [Trace.start, makeChan], ?_, ?_, ?_⟩
  · simp [Enqueue, Trace.start, makeChan, hes]
  · cases es with
    | nil => simp at hes; omega
    | cons d rest =>
      refine ⟨d, ⟨N, rest⟩, by simp [selectRecv, Trace.start, makeChan], ?_⟩
      simp only [List.length_cons] at hes
      have : rest.length < N := by omega
      simp [Enqueue, this]
  · intro ops
    exact run_bound ops (Trace.start N) (by simp [Trace.start, makeChan])

/-- Witness of C15: the queue of `NewServer`, of capacity 10, filled with ten
events. -/
theorem capacity_enforcement_witness :
    NewServer.Events = (Trace.start 10).q ∧
    ((Trace.start 10).run ((List.replicate 10 alicePush).map Op.enqueue)).results =
      List.replicate 10 EnqueueResult.Ok ∧
    Enqueue ((Trace.start 10).run ((List.replicate 10 alicePush).map Op.enqueue)).q bobPush =
      (((Trace.start 10).run ((List.replicate 10 alicePush).map Op.enqueue)).q,
        EnqueueResult.Overloaded) :=
  ⟨rfl,
   (capacity_enforcement 10 (List.replicate 10 alicePush) bobPush carolPull
      (by decide) (by decide)).1,
   (capacity_enforcement 10 (List.replicate 10 alicePush) bobPush carolPull
      (by decide) (by decide)).2.2.1⟩

/-- C16 (FIFO delivery): events that fit into a fresh queue of capacity `N`
are all accepted, and draining as many times delivers exactly them, in the
order of the enqueues, leaving the queue empty; and whatever the operations,
the delivered events followed by the buffered ones are the accepted events in
the order of acceptance, so nothing accepted is duplicated, reordered or
lost. -/
theorem fifo_delivery (N : Nat) (es : List Event) (hes : es.length ≤ N) :
    ((Trace.start N).run (es.map Op.enqueue ++ List.replicate es.length Op.drain)).results =
      List.replicate es.length EnqueueResult.Ok ∧
    ((Trace.start N).run (es.map Op.enqueue ++ List.replicate es.length Op.drain)).delivered = es ∧
    ((Trace.start N).run (es.map Op.enqueue ++ List.replicate es.length Op.drain)).q.buf = [] ∧
    (∀ ops, ((Trace.start N).run ops).delivered ++ ((Trace.start N).run ops).q.buf =
      ((Trace.start N).run ops).accepted) := by
  have hsplit : (Trace.start N).run (es.map Op.enqueue ++ List.replicate es.length Op.drain) =
      ((Trace.start N).run (es.map Op.enqueue)).run (List.replicate es.length Op.drain) := by
    simp [Trace.run, List.foldl_append]
  have hfill := run_enqueues es (Trace.start N) (by simp [Trace.start, makeChan, hes])
  rw [hsplit, hfill, run_drains es _ [] (by simp [Trace.start, makeChan])]
  refine ⟨by simp [Trace.start], by simp [Trace.start], rfl, ?_⟩
  intro ops
  exact run_fifo ops (Trace.start N) rfl

/-- Witness of C16: three events through the queue of `NewServer`. -/
theorem fifo_delivery_witness :
    NewServer.Events = (Trace.start 10).q ∧
    ((Trace.start 10).run
      [Op.enqueue alicePush, Op.enqueue bobPush, Op.enqueue carolPull,
       Op.drain, Op.drain, Op.drain]).delivered = [alicePush, bobPush, carolPull] :=
  ⟨rfl, (fifo_delivery 10 [alicePush, bobPush, carolPull] (by decide)).2.1⟩

/-- C17 (no crash): `NewEvent` returns normally on every input; no index or
slice expression it evaluates is out of bounds. -/
theorem NewEvent_never_panics (s : GoString) :
    ∃ ev err, NewEvent s = some (ev, err) :=
  ⟨none, some ErrInvalidEventFormat, NewEvent_takes_first_return s⟩

/-- C18 (the guard rejects everything): on every input `NewEvent` returns
`(nil, ErrInvalidEventFormat)`, and on no input does it return an Event. -/
theorem NewEvent_rejects_every_input (s : GoString) :
    NewEvent s = some (none, some ErrInvalidEventFormat) ∧
    ¬ ∃ ev err, NewEvent s = some (some ev, err) := by
  refine ⟨NewEvent_takes_first_return s, ?_⟩
  rintro ⟨ev, err, h⟩
  rw [NewEvent_takes_first_return s] at h
  simp at h

/-- C19 (base fields ignored): two Events that agree on `Type`, `Owner`,
`Repo`, `Branch` and `Commit`, with a `Type` other than `pull_request`, have
the same encoding, whatever their base fields. -/
theorem String_ignores_base (e1 e2 : Event)
    (hpull : e1.Type_ ≠ lit "pull_request")
    (hType : e1.Type_ = e2.Type_) (hOwner : e1.Owner = e2.Owner) (hRepo : e1.Repo = e2.Repo)
    (hBranch : e1.Branch = e2.Branch) (hCommit : e1.Commit = e2.Commit) :
    e1.String = e2.String := by
  have hpull2 : e2.Type_ ≠ lit "pull_request" := hType ▸ hpull
  simp only [Event.String, if_neg hpull, if_neg hpull2, hType, hOwner, hRepo, hBranch, hCommit]

/-- Witness of C19: `bobPush` and `bobPushWithBase` differ in their base
fields and have the same encoding, so the encoding is not injective on
arbitrary Events. -/
theorem String_ignores_base_witness :
    bobPush ≠ bobPushWithBase ∧ bobPush.String = bobPushWithBase.String :=
  ⟨by decide,
   String_ignores_base bobPush bobPushWithBase (by decide) (by decide) (by decide) (by decide)
     (by decide) (by decide)⟩

end Webhook
